import Mathlib

/-!
Verification of the missing-value preprocessing pipeline demonstrated in
`src/Missing_Values_Imputation.ipynb`.

The notebook works on a pandas DataFrame of numeric cells in which the
sentinel value `0` in the nullable columns `[1,2,3,4,5]` is re-marked as
`NaN`, after which rows are dropped (`dropna`) or missing cells are imputed
(`fillna(dataset.mean())`, or `SimpleImputer` with strategy `mean`,
`median` or `most_frequent`).

Shallow embedding:
* a raw (just-loaded) dataset is a list of rows of rational cells;
* a marked dataset is a list of rows of `Option ℚ` cells, `none` playing
  the role of `NaN`;
* `mark_missing` models `dataset[cols] = dataset[cols].replace(s, nan)`;
* `count_missing` models `dataset.isnull().sum()` per column, and
  `count_sentinel` models `(dataset[cols] == 0).sum()` per column;
* `drop_incomplete_rows` models `dataset.dropna()`;
* `impute` models `dataset.fillna(dataset.mean(), inplace=True)` and the
  per-column statistics of `SimpleImputer` (pandas `fillna` with a `NaN`
  fill value leaves the cell `NaN`, which is what happens on an all-missing
  column whose mean is `NaN`);
* `sk_impute_mean` models `SimpleImputer(missing_values=nan,
  strategy=mean).fit_transform`, which in addition drops any column whose
  cells are all missing (its fitted statistic is undefined).
-/

namespace MissingValues

/-- A cell of a marked dataset: `none` models `NaN`. -/
abbrev Cell := Option ℚ

/-- A row of a marked dataset. -/
abbrev Row := List Cell

/-- A marked dataset: ordered rows of optional numeric cells. -/
abbrev Dataset := List Row

/-- A row of a raw (just-loaded) dataset: every cell is numeric. -/
abbrev RawRow := List ℚ

/-- A raw dataset as produced by `read_csv`: ordered rows of numeric cells. -/
abbrev RawDataset := List RawRow

/-- Map a function over a list together with the position of each element,
starting at index `k`.  This models the columnwise view pandas takes of a
single row. -/
def idxMap (f : ℕ → α → β) : ℕ → List α → List β
  | _, [] => []
  | j, v :: vs => f j v :: idxMap f (j + 1) vs

/-- The effect of `replace(s, nan)` restricted to columns `C` on the cell of
column `j` holding value `v`. -/
def markCell (C : List ℕ) (s : ℚ) (j : ℕ) (v : ℚ) : Cell :=
  if j ∈ C ∧ v = s then none else some v

/-- `dataset[C] = dataset[C].replace(s, nan)`: in every column of `C`,
each cell equal to the sentinel `s` becomes the missing marker. -/
def mark_missing (D : RawDataset) (C : List ℕ) (s : ℚ) : Dataset :=
  D.map (idxMap (markCell C s) 0)

/-- `dataset.isnull().sum()` for column `j`: the number of rows whose cell
in column `j` is the missing marker. -/
def count_missing (D : Dataset) (j : ℕ) : ℕ :=
  (D.map (fun r => if r[j]? = some none then 1 else 0)).sum

/-- `(dataset == s).sum()` for column `j` of a raw dataset: the number of
rows whose cell in column `j` equals the sentinel `s`. -/
def count_sentinel (D : RawDataset) (s : ℚ) (j : ℕ) : ℕ :=
  (D.map (fun r => if r[j]? = some s then 1 else 0)).sum

/-- A row is complete when none of its cells is the missing marker. -/
def rowComplete (r : Row) : Bool :=
  r.all (fun c => c.isSome)

/-- `dataset.dropna()`: remove every row containing a missing marker. -/
def drop_incomplete_rows (D : Dataset) : Dataset :=
  D.filter rowComplete

/-- The non-missing values of column `j`, in row order; statistics such as
`dataset.mean()` skip `NaN` cells, so they are computed from this list. -/
def colNonMissing (D : Dataset) (j : ℕ) : List ℚ :=
  D.filterMap (fun r => (r[j]?).bind id)

/-- Arithmetic mean of a list of rationals. -/
def listMean (l : List ℚ) : ℚ :=
  l.sum / (l.length : ℚ)

/-- `dataset.mean()` / the fitted statistic of `SimpleImputer(mean)` for one
column: the mean of the non-missing values, undefined (`NaN`) when there is
none. -/
def meanStat (l : List ℚ) : Option ℚ :=
  if l = [] then none else some (listMean l)

/-- Insert a value into a sorted list, keeping it sorted. -/
def insertSorted (v : ℚ) : List ℚ → List ℚ
  | [] => [v]
  | w :: ws => if v ≤ w then v :: w :: ws else w :: insertSorted v ws

/-- Insertion sort, ascending. -/
def sortAsc : List ℚ → List ℚ
  | [] => []
  | v :: vs => insertSorted v (sortAsc vs)

/-- `dataset.median()` / the fitted statistic of `SimpleImputer(median)` for
one column: the middle element of the sorted non-missing values, or the
average of the two middle elements for an even count; undefined when there
is no non-missing value. -/
def medianStat (l : List ℚ) : Option ℚ :=
  let s := sortAsc l
  if s.length = 0 then none
  else if s.length % 2 = 1 then s[s.length / 2]?
  else
    match s[s.length / 2 - 1]?, s[s.length / 2]? with
    | some a, some b => some ((a + b) / 2)
    | _, _ => none

/-- The fitted statistic of `SimpleImputer(most_frequent)` (scipy mode):
the value of maximal multiplicity, ties broken by the smallest value;
undefined on an empty list. -/
def mostFrequent (l : List ℚ) : Option ℚ :=
  l.foldl
    (fun best v =>
      match best with
      | none => some v
      | some b =>
          if l.count b < l.count v ∨ (l.count v = l.count b ∧ v < b) then some v
          else some b)
    none

/-- The three imputation strategies exercised by the notebook. -/
inductive Strategy
  | mean
  | median
  | most_frequent

/-- The per-column statistic of a strategy. -/
def statOf : Strategy → List ℚ → Option ℚ
  | .mean => meanStat
  | .median => medianStat
  | .most_frequent => mostFrequent

/-- The fitted statistic of column `j` of dataset `D` under a strategy:
computed from the non-missing values of column `j` alone. -/
def imputeStats (strat : Strategy) (D : Dataset) (j : ℕ) : Option ℚ :=
  statOf strat (colNonMissing D j)

/-- `fillna` on one cell of column `j`: a present value is kept; a missing
marker is replaced by the column statistic when that statistic is defined,
and stays missing when the statistic itself is `NaN` (pandas `fillna` with a
`NaN` fill value is a no-op on the cell). -/
def fillCell (stats : ℕ → Option ℚ) (j : ℕ) (c : Cell) : Cell :=
  match c with
  | some v => some v
  | none => stats j

/-- `dataset.fillna(dataset.<statistic>(), inplace=True)`: every missing
cell of column `j` is replaced by the column-`j` statistic (when defined). -/
def impute (D : Dataset) (strat : Strategy) : Dataset :=
  D.map (idxMap (fillCell (imputeStats strat D)) 0)

/-- The transform step of `SimpleImputer` on one row, starting at column
`k`: a column whose fitted statistic is undefined (all cells missing) is
dropped from the output; in every other column missing cells are replaced
by the statistic. -/
def skTransformRow (stats : ℕ → Option ℚ) : ℕ → Row → Row
  | _, [] => []
  | j, c :: cs =>
    match stats j with
    | none => skTransformRow stats (j + 1) cs
    | some m => (match c with | some v => some v | none => some m) :: skTransformRow stats (j + 1) cs

/-- `SimpleImputer(missing_values=nan, strategy=mean).fit_transform`. -/
def sk_impute_mean (D : Dataset) : Dataset :=
  D.map (skTransformRow (imputeStats .mean D) 0)

/-- The cell of a marked dataset at row `i`, column `j` (absent when the
dataset has no such position). -/
def cellAt (D : Dataset) (i j : ℕ) : Option Cell :=
  (D[i]?).bind (fun r => r[j]?)

/-- The cell of a raw dataset at row `i`, column `j`. -/
def rawCellAt (D : RawDataset) (i j : ℕ) : Option ℚ :=
  (D[i]?).bind (fun r => r[j]?)

/-! ### Helper lemmas -/

theorem idxMap_length (f : ℕ → α → β) : ∀ (k : ℕ) (l : List α), (idxMap f k l).length = l.length
  | _, [] => rfl
  | k, _ :: vs => by simp [idxMap, idxMap_length f (k + 1) vs]

theorem idxMap_getElem? (f : ℕ → α → β) :
    ∀ (l : List α) (k i : ℕ), (idxMap f k l)[i]? = (l[i]?).map (f (k + i))
  | [], _, _ => by simp [idxMap]
  | v :: vs, k, 0 => by simp [idxMap]
  | v :: vs, k, i + 1 => by
    have h := idxMap_getElem? f vs (k + 1) i
    simpa [idxMap, Nat.add_assoc, Nat.add_comm 1 i] using h

/-- The cell of a rowwise `idxMap` at row `i`, column `j` is the image of the
original cell under the columnwise function at `j`. -/
theorem cellAt_map_idxMap (f : ℕ → α → Cell) (D : List (List α)) (i j : ℕ) :
    cellAt (D.map (idxMap f 0)) i j = ((D[i]?).bind (fun r => r[j]?)).map (f j) := by
  rw [cellAt, List.getElem?_map]
  cases h : D[i]? with
  | none => simp
  | some r =>
    simp [idxMap_getElem?]

/-! ### Claim theorems -/

/-- C1: counting missing markers after marking with sentinel 0 yields, for
each column in the nullable set `C`, exactly the number of cells equal to 0
in that column of the raw dataset, and yields 0 for every column outside
`C`. -/
theorem count_missing_mark_missing (D : RawDataset) (C : List ℕ) (j : ℕ) :
    count_missing (mark_missing D C 0) j =
      if j ∈ C then count_sentinel D 0 j else 0 := by
  induction D with
  | nil => simp [count_missing, count_sentinel, mark_missing]
  | cons r D ih =>
    have hcell : (idxMap (markCell C 0) 0 r)[j]? = (r[j]?).map (markCell C 0 j) := by
      simpa using idxMap_getElem? (markCell C 0) r 0 j
    have hhead :
        (if (idxMap (markCell C 0) 0 r)[j]? = some none then 1 else 0) =
          if j ∈ C then (if r[j]? = some (0 : ℚ) then 1 else 0) else 0 := by
      rw [hcell]
      cases hr : r[j]? with
      | none => simp
      | some v =>
        by_cases hC : j ∈ C
        · by_cases hv : v = 0 <;> simp [markCell, hC, hv]
        · simp [markCell, hC]
    calc count_missing (mark_missing (r :: D) C 0) j
        = (if (idxMap (markCell C 0) 0 r)[j]? = some none then 1 else 0)
            + count_missing (mark_missing D C 0) j := by
          simp [count_missing, mark_missing]
      _ = _ := by
          rw [hhead, ih]
          by_cases hC : j ∈ C <;> simp [count_sentinel, hC]

/-- C6: `mark_missing` replaces, in each nullable column, exactly the cells
equal to the sentinel with the missing marker and leaves every other cell
unchanged (in particular every cell of a column outside the nullable set,
such as the target column); it returns a new dataset with the same number
of rows. -/
theorem mark_missing_cells (D : RawDataset) (C : List ℕ) (s : ℚ) (i j : ℕ) :
    cellAt (mark_missing D C s) i j
        = (rawCellAt D i j).map (fun v => if j ∈ C ∧ v = s then none else some v) ∧
      (mark_missing D C s).length = D.length := by
  constructor
  · simpa [mark_missing, rawCellAt, markCell] using
      cellAt_map_idxMap (markCell C s) D i j
  · simp [mark_missing]

/-- C4: the row count is unchanged by `mark_missing` and by `impute` (for
every strategy), and is not increased by `drop_incomplete_rows`. -/
theorem row_counts (R : RawDataset) (C : List ℕ) (s : ℚ) (D : Dataset) (strat : Strategy) :
    (mark_missing R C s).length = R.length ∧
      (impute D strat).length = D.length ∧
      (drop_incomplete_rows D).length ≤ D.length := by
  refine ⟨by simp [mark_missing, idxMap_length], by simp [impute, idxMap_length], ?_⟩
  exact List.length_filter_le _ _

/-- C5: `drop_incomplete_rows` is idempotent: a second application removes
nothing, because every surviving row is already marker-free. -/
theorem drop_incomplete_rows_idempotent (D : Dataset) :
    drop_incomplete_rows (drop_incomplete_rows D) = drop_incomplete_rows D := by
  simp [drop_incomplete_rows, List.filter_filter, Bool.and_self]

/-- C3: for a column with at least one non-missing value, mean imputation
replaces every missing marker of that column by the arithmetic mean of the
column's originally non-missing values, leaves every originally non-missing
cell unchanged, and leaves no missing marker in the column. -/
theorem impute_mean_cells (D : Dataset) (j : ℕ)
    (h : colNonMissing D j ≠ []) (i : ℕ) :
    cellAt (impute D .mean) i j =
        (cellAt D i j).map (fun c =>
          match c with
          | some v => some v
          | none => some (listMean (colNonMissing D j))) ∧
      cellAt (impute D .mean) i j ≠ some none := by
  have hstat : imputeStats .mean D j = some (listMean (colNonMissing D j)) := by
    simp [imputeStats, statOf, meanStat, h]
  have hmain : cellAt (impute D .mean) i j =
      (cellAt D i j).map (fun c =>
        match c with
        | some v => some v
        | none => some (listMean (colNonMissing D j))) := by
    rw [impute, cellAt_map_idxMap]
    apply Option.map_congr
    intro c _
    cases c with
    | some v => rfl
    | none => simpa [fillCell] using hstat
  refine ⟨hmain, ?_⟩
  rw [hmain]
  cases hc : cellAt D i j with
  | none => simp
  | some c => cases c <;> simp

/-- C2 (amended): on a column whose cells are all missing markers, the
notebook's fillna-with-mean imputation leaves every cell of that column
unchanged — the markers stay in place.  No error is raised and no default
fill value is substituted. -/
theorem impute_mean_empty_column_unchanged (D : Dataset) (j : ℕ)
    (h : colNonMissing D j = []) (i : ℕ) :
    cellAt (impute D .mean) i j = cellAt D i j := by
  have hstat : imputeStats .mean D j = none := by
    simp [imputeStats, statOf, meanStat, h]
  have hfix : ∀ c : Cell, fillCell (imputeStats .mean D) j c = c := by
    intro c; cases c <;> simp [fillCell, hstat]
  rw [impute, cellAt_map_idxMap]
  cases hD : D[i]? with
  | none => simp [cellAt, hD]
  | some r =>
    cases hr : r[j]? with
    | none => simp [cellAt, hD, hr]
    | some c => simp [cellAt, hD, hr, hfix]

/-- C2 (counterexample): on a dataset whose column 0 is entirely missing,
`impute` with the mean strategy completes normally and returns the dataset
with both markers still in place — it does not fail — and the scikit-learn
mean imputer silently drops the column; neither path surfaces an
EmptyColumnError. -/
theorem impute_empty_column_no_failure :
    impute [[none, some 1], [none, some 2]] .mean = [[none, some 1], [none, some 2]] ∧
      count_missing (impute [[none, some 1], [none, some 2]] .mean) 0 = 2 ∧
      sk_impute_mean [[none, some 1], [none, some 2]] = [[some 1], [some 2]] := by
  refine ⟨by decide, by decide, by decide⟩

/-- C8: the imputation statistic of a column is computed from that column's
own non-missing cells only — two datasets with identical `j`-th columns get
identical `j`-th statistics under every strategy — and the imputed cell at
row `i`, column `j` depends only on that cell and that statistic. -/
theorem impute_stat_column_independent (strat : Strategy) (D E : Dataset) (j i : ℕ)
    (h : D.map (fun r => r[j]?) = E.map (fun r => r[j]?)) :
    imputeStats strat D j = imputeStats strat E j ∧
      cellAt (impute D strat) i j = (cellAt D i j).map (fillCell (imputeStats strat D) j) := by
  constructor
  · have h1 : colNonMissing D j
        = (D.map (fun r => r[j]?)).filterMap (fun oc => oc.bind id) := by
      rw [List.filterMap_map]; rfl
    have h2 : colNonMissing E j
        = (E.map (fun r => r[j]?)).filterMap (fun oc => oc.bind id) := by
      rw [List.filterMap_map]; rfl
    have hcol : colNonMissing D j = colNonMissing E j := by rw [h1, h2, h]
    simp [imputeStats, hcol]
  · exact cellAt_map_idxMap _ D i j

/-- On a row whose columns all have a defined statistic, the scikit-learn
transform drops nothing and coincides with the cellwise fill. -/
theorem skTransformRow_eq_idxMap_fillCell (stats : ℕ → Option ℚ) (cs : Row) :
    ∀ (k : ℕ), (∀ i, i < cs.length → stats (k + i) ≠ none) →
      skTransformRow stats k cs = idxMap (fillCell stats) k cs := by
  induction cs with
  | nil => intro k _; rfl
  | cons c cs ih =>
    intro k hk
    have h0 : stats k ≠ none := by simpa using hk 0 (by simp)
    obtain ⟨m, hm⟩ := Option.ne_none_iff_exists'.mp h0
    have hrest : ∀ i, i < cs.length → stats (k + 1 + i) ≠ none := by
      intro i hi
      have := hk (i + 1) (by simpa using Nat.succ_lt_succ hi)
      simpa [Nat.add_assoc, Nat.add_comm 1 i] using this
    cases c with
    | none => simp [skTransformRow, idxMap, hm, fillCell, ih (k + 1) hrest]
    | some v => simp [skTransformRow, idxMap, hm, fillCell, ih (k + 1) hrest]

/-- C10: on a marked dataset in which every column (of every row) has at
least one non-missing value, the scikit-learn mean imputer produces exactly
the same dataset, cell for cell, as the pandas fillna-with-column-means
path. -/
theorem sk_impute_mean_eq_impute_mean (D : Dataset)
    (h : ∀ r ∈ D, ∀ j, j < r.length → colNonMissing D j ≠ []) :
    sk_impute_mean D = impute D .mean := by
  rw [sk_impute_mean, impute]
  apply List.map_congr_left
  intro r hr
  apply skTransformRow_eq_idxMap_fillCell
  intro i hi
  have hcol := h r hr i (by simpa using hi)
  simp [imputeStats, statOf, meanStat, hcol]

/-- Every value the most-frequent fold returns has maximal multiplicity in
`l` among the values folded over, with ties broken by the smallest value;
the accumulator obeys the same bound. -/
theorem mostFrequent_foldl_spec (l : List ℚ) :
    ∀ (rest : List ℚ) (acc : Option ℚ) (v : ℚ),
      List.foldl
        (fun best w =>
          match best with
          | none => some w
          | some b =>
              if l.count b < l.count w ∨ (l.count w = l.count b ∧ w < b) then some w
              else some b)
        acc rest = some v →
      (∀ u ∈ rest, l.count u ≤ l.count v ∧ (l.count u = l.count v → v ≤ u)) ∧
      (∀ b, acc = some b → l.count b ≤ l.count v ∧ (l.count b = l.count v → v ≤ b)) := by
  intro rest
  induction rest with
  | nil =>
    intro acc v hfold
    refine ⟨by simp, ?_⟩
    intro b hb
    rw [hb] at hfold
    cases hfold
    exact ⟨le_refl _, fun _ => le_refl _⟩
  | cons u rest ih =>
    intro acc v hfold
    rw [List.foldl_cons] at hfold
    obtain ⟨hrest, hacc'⟩ := ih _ v hfold
    have hu : l.count u ≤ l.count v ∧ (l.count u = l.count v → v ≤ u) := by
      cases acc with
      | none => exact hacc' u rfl
      | some b =>
        by_cases hc : l.count b < l.count u ∨ (l.count u = l.count b ∧ u < b)
        · exact hacc' u (by simp [hc])
        · have hb := hacc' b (by simp [hc])
          push_neg at hc
          obtain ⟨hc1, hc2⟩ := hc
          constructor
          · exact le_trans hc1 hb.1
          · intro heq
            have hc1' : l.count u ≤ l.count b := hc1
            have hub : l.count u = l.count b := by omega
            have hbv : l.count b = l.count v := by omega
            exact le_trans (hb.2 hbv) (hc2 hub)
    refine ⟨?_, ?_⟩
    · intro w hw
      rcases List.mem_cons.mp hw with hw | hw
      · rw [hw]; exact hu
      · exact hrest w hw
    · intro b0 hb0
      by_cases hc : l.count b0 < l.count u ∨ (l.count u = l.count b0 ∧ u < b0)
      · have hufold := hacc' u (by simp [hb0, hc])
        rcases hc with hlt | ⟨heq, hlt⟩
        · constructor
          · exact le_trans (Nat.le_of_lt hlt) hufold.1
          · intro hbv
            omega
        · constructor
          · rw [← heq]; exact hufold.1
          · intro hbv
            have huv : l.count u = l.count v := by omega
            exact le_trans (hufold.2 huv) (le_of_lt hlt)
      · exact hacc' b0 (by simp [hb0, hc])

/-- C7: the most-frequent imputation statistic breaks ties by the smallest
value — every member of the column has multiplicity at most that of the
chosen value, and equal multiplicity forces the chosen value to be the
smaller; moreover on the column `[1,1,2,2,3]` without missing markers the
imputation is a no-op, and on the column `[missing,1,1,2]` the missing cell
is filled with `1`. -/
theorem most_frequent_tiebreak (l : List ℚ) (v u : ℚ)
    (h : mostFrequent l = some v) (hu : u ∈ l) :
    (l.count u ≤ l.count v ∧ (l.count u = l.count v → v ≤ u)) ∧
      impute [[some 1], [some 1], [some 2], [some 2], [some 3]] .most_frequent
          = [[some 1], [some 1], [some 2], [some 2], [some 3]] ∧
      impute [[none], [some 1], [some 1], [some 2]] .most_frequent
          = [[some 1], [some 1], [some 1], [some 2]] := by
  refine ⟨(mostFrequent_foldl_spec l l none v h).1 u hu, by decide, by decide⟩

/-! ### Witnesses -/

/-- Witness for C3 at the one-column dataset `[[1], [missing]]`: the missing
cell of row 1 is governed by the mean of the non-missing values `[1]`. -/
theorem impute_mean_cells_witness :
    cellAt (impute [[some 1], [none]] .mean) 1 0 =
        (cellAt [[some 1], [none]] 1 0).map (fun c =>
          match c with
          | some v => some v
          | none => some (listMean (colNonMissing [[some 1], [none]] 0))) ∧
      cellAt (impute [[some 1], [none]] .mean) 1 0 ≠ some none :=
  impute_mean_cells [[some 1], [none]] 0 (by decide) 1

/-- Witness for the amended C2 at a dataset whose column 0 is entirely
missing: the marker cell at row 0, column 0 is left unchanged. -/
theorem impute_mean_empty_column_unchanged_witness :
    cellAt (impute [[none, some 1], [none, some 2]] .mean) 0 0 =
      cellAt [[none, some 1], [none, some 2]] 0 0 :=
  impute_mean_empty_column_unchanged [[none, some 1], [none, some 2]] 0 (by decide) 0

/-- Witness for C7 at the tied column `[1,1,2,2,3]` with chosen value `1`
and competitor `2`: both have multiplicity 2 and the chosen value is the
smaller. -/
theorem most_frequent_tiebreak_witness :
    (List.count 2 [(1 : ℚ), 1, 2, 2, 3] ≤ List.count 1 [(1 : ℚ), 1, 2, 2, 3] ∧
        (List.count 2 [(1 : ℚ), 1, 2, 2, 3] = List.count 1 [(1 : ℚ), 1, 2, 2, 3] →
          (1 : ℚ) ≤ 2)) ∧
      impute [[some 1], [some 1], [some 2], [some 2], [some 3]] .most_frequent
          = [[some 1], [some 1], [some 2], [some 2], [some 3]] ∧
      impute [[none], [some 1], [some 1], [some 2]] .most_frequent
          = [[some 1], [some 1], [some 1], [some 2]] :=
  most_frequent_tiebreak [(1 : ℚ), 1, 2, 2, 3] 1 2 (by decide) (by decide)

/-- Witness for C8 at two datasets sharing column 0 but differing in column
1: the fitted statistics of column 0 coincide. -/
theorem impute_stat_column_independent_witness :
    imputeStats .mean [[some 1, some 5], [none, some 7]] 0
        = imputeStats .mean [[some 1, some 9], [none, some 0]] 0 ∧
      cellAt (impute [[some 1, some 5], [none, some 7]] .mean) 1 0 =
        (cellAt [[some 1, some 5], [none, some 7]] 1 0).map
          (fillCell (imputeStats .mean [[some 1, some 5], [none, some 7]]) 0) :=
  impute_stat_column_independent .mean
    [[some 1, some 5], [none, some 7]] [[some 1, some 9], [none, some 0]] 0 1 (by decide)

/-- Witness for C10 at a two-by-two dataset with one missing cell: both
mean-imputation paths return the same dataset. -/
theorem sk_impute_mean_eq_impute_mean_witness :
    sk_impute_mean [[some 1, none], [some 3, some 4]] =
      impute [[some 1, none], [some 3, some 4]] .mean :=
  sk_impute_mean_eq_impute_mean [[some 1, none], [some 3, some 4]] (by decide)

end MissingValues
